import Mathlib

/-!
# A verification development for the tno.mpc.communication pool

Shallow embedding of the communication-pool library: the serialization
framework (`serialization.py` and the built-in serializer plugins), the
HTTP client/server handler state machines (`httphandlers.py`) and the
pool (`pool.py`). Machine values are modelled as a Lean inductive of
Python values; the wire codec (the external `ormsgpack` library) is
modelled as a tree of its natively representable values, since its byte
encoding is a bijection on that tree.
-/

/-- The Python values that flow through the serialization layer:
`None`, booleans, arbitrary-precision integers, strings, `bytes`
(a list of byte values), lists, dicts with string keys (the default
wire-codec option mask does not enable non-string keys) and tuples. -/
inductive PyVal : Type where
  | none : PyVal
  | bool : Bool → PyVal
  | int : Int → PyVal
  | str : String → PyVal
  | bytes : List Nat → PyVal
  | list : List PyVal → PyVal
  | dict : List (String × PyVal) → PyVal
  | tuple : List PyVal → PyVal
  deriving Repr

/-- A message id: `str | int` in the source. -/
inductive MsgId : Type where
  | str : String → MsgId
  | int : Int → MsgId
  deriving Repr, DecidableEq

/-- Python's `str(msg_id)`. -/
def MsgId.toStr : MsgId → String
  | .str s => s
  | .int n => toString n

/-- The message id as the Python value placed in the envelope record. -/
def MsgId.toPy : MsgId → PyVal
  | .str s => .str s
  | .int n => .int n

/-! ## The int serializer plugin (serializer_plugins/int.py) -/

/-- Python's `int.bit_length()`: the number of bits of the absolute value. -/
def bitLength (n : Int) : Nat := Nat.size n.natAbs

/-- Little-endian base-256 digits of `m`, exactly `len` bytes (the low
`len` bytes of `m`). -/
def leBytes : Nat → Nat → List Nat
  | 0, _ => []
  | len + 1, m => m % 256 :: leBytes len (m / 256)

/-- The value of a little-endian byte list (unsigned):
`int.from_bytes(bs, "little", signed=False)`. -/
def leValue (bs : List Nat) : Nat :=
  bs.foldr (fun b acc => acc * 256 + b) 0

/-- `n.to_bytes(length, "little", signed=True)`; `Option.none` models the
`OverflowError` raised when `n` does not fit in `length` signed bytes. -/
def int_to_bytes (length : Nat) (n : Int) : Option (List Nat) :=
  if -(2 ^ (8 * length - 1) : Int) ≤ n ∧ n < 2 ^ (8 * length - 1) then
    some (leBytes length (n % (2 ^ (8 * length) : Int)).toNat)
  else
    Option.none

/-- `int_serialize` from `serializer_plugins/int.py`:
`obj.to_bytes((obj.bit_length() + 8) // 8, "little", signed=True)`. -/
def int_serialize (n : Int) : Option (List Nat) :=
  int_to_bytes ((bitLength n + 8) / 8) n

/-- `int.from_bytes(obj, "little", signed=True)`: the unsigned value,
re-interpreted in two's complement over `8 * length` bits. -/
def int_from_bytes (bs : List Nat) : Int :=
  let u := leValue bs
  if u < 2 ^ (8 * bs.length - 1) then (u : Int)
  else (u : Int) - 2 ^ (8 * bs.length)

/-- `int_deserialize` from `serializer_plugins/int.py`. -/
def int_deserialize (bs : List Nat) : Int := int_from_bytes bs

theorem leBytes_length (len m : Nat) : (leBytes len m).length = len := by
  induction len generalizing m with
  | zero => rfl
  | succ k ih => simp [leBytes, ih]

theorem leValue_leBytes (len m : Nat) (h : m < 2 ^ (8 * len)) :
    leValue (leBytes len m) = m := by
  induction len generalizing m with
  | zero =>
    simp only [pow_zero, Nat.mul_zero] at h
    interval_cases m
    rfl
  | succ k ih =>
    have hdiv : m / 256 < 2 ^ (8 * k) := by
      have h256 : (256 : Nat) = 2 ^ 8 := by norm_num
      rw [Nat.div_lt_iff_lt_mul (by norm_num : 0 < 256)]
      calc m < 2 ^ (8 * (k + 1)) := h
        _ = 2 ^ (8 * k) * 256 := by rw [h256, ← pow_add]; ring_nf
    have := ih (m / 256) hdiv
    simp only [leBytes, leValue, List.foldr] at this ⊢
    rw [this]
    omega

/-- The bit length bounds the absolute value: `n.natAbs < 2 ^ bitLength n`. -/
theorem natAbs_lt_two_pow_bitLength (n : Int) : n.natAbs < 2 ^ bitLength n :=
  Nat.lt_size_self n.natAbs

/-- `8 * ((b + 8) / 8)` exceeds `b`. -/
theorem bitLength_lt_eight_mul (b : Nat) : b < 8 * ((b + 8) / 8) := by
  have h := Nat.div_add_mod (b + 8) 8
  have : (b + 8) % 8 < 8 := Nat.mod_lt _ (by norm_num)
  omega

/-- Two's-complement decode inverts the two's-complement encode, for any
byte count `L ≥ 1` and any `n` within the signed range of `L` bytes. -/
theorem int_from_bytes_leBytes (L : Nat) (n : Int) (hL1 : 1 ≤ L)
    (hlo : -(2 ^ (8 * L - 1) : Int) ≤ n) (hhi : n < 2 ^ (8 * L - 1)) :
    int_from_bytes (leBytes L (n % (2 ^ (8 * L) : Int)).toNat) = n := by
  have hsub : 8 * L - 1 + 1 = 8 * L := by omega
  have hpow2 : (2 : Int) ^ (8 * L) = 2 ^ (8 * L - 1) * 2 := by
    rw [← pow_succ, hsub]
  have hmodpos : (0 : Int) < 2 ^ (8 * L) := by positivity
  have hmod : n % (2 ^ (8 * L) : Int) = if 0 ≤ n then n else n + 2 ^ (8 * L) := by
    split
    · exact Int.emod_eq_of_lt (by omega) (by omega)
    · have h : (n + 2 ^ (8 * L)) % (2 ^ (8 * L) : Int) = n % (2 ^ (8 * L) : Int) := by
        simp [Int.add_mul_emod_self_left, Int.add_comm]
      rw [← h]
      exact Int.emod_eq_of_lt (by omega) (by omega)
  set m := (n % (2 ^ (8 * L) : Int)).toNat with hm
  have hmcast : ((m : Int)) = n % (2 ^ (8 * L) : Int) := by
    rw [hm, Int.toNat_of_nonneg (Int.emod_nonneg n (by omega))]
  have hmlt : m < 2 ^ (8 * L) := by
    have h1 : n % (2 ^ (8 * L) : Int) < 2 ^ (8 * L) := Int.emod_lt_of_pos n hmodpos
    have h2 : ((2 ^ (8 * L) : Nat) : Int) = 2 ^ (8 * L) := by push_cast; ring
    have : ((m : Int)) < ((2 ^ (8 * L) : Nat) : Int) := by omega
    exact_mod_cast this
  have hcastpow : ((2 ^ (8 * L - 1) : Nat) : Int) = 2 ^ (8 * L - 1) := by
    push_cast; ring
  rw [show int_from_bytes (leBytes L m) =
      (if leValue (leBytes L m) < 2 ^ (8 * (leBytes L m).length - 1)
        then ((leValue (leBytes L m) : Nat) : Int)
        else ((leValue (leBytes L m) : Nat) : Int) -
          2 ^ (8 * (leBytes L m).length)) from rfl]
  rw [leBytes_length, leValue_leBytes L m hmlt]
  by_cases hpos : 0 ≤ n
  · have hmn : (m : Int) = n := by rw [hmcast, hmod]; simp [hpos]
    have hmsmall : m < 2 ^ (8 * L - 1) := by
      have : (m : Int) < ((2 ^ (8 * L - 1) : Nat) : Int) := by omega
      exact_mod_cast this
    simp only [hmsmall, if_true]
    exact hmn
  · have hmn : (m : Int) = n + 2 ^ (8 * L) := by
      rw [hmcast, hmod]; simp [hpos]
    have hmbig : ¬ m < 2 ^ (8 * L - 1) := by
      intro hcon
      have : (m : Int) < ((2 ^ (8 * L - 1) : Nat) : Int) := by exact_mod_cast hcon
      omega
    simp only [hmbig, if_false]
    have h2 : ((2 ^ (8 * L) : Nat) : Int) = 2 ^ (8 * L) := by push_cast; ring
    omega

/-- The byte count the serializer uses, `(bit_length + 8) // 8`, always
admits `n` in its signed range. -/
theorem int_serialize_range (n : Int) :
    1 ≤ (bitLength n + 8) / 8 ∧
      -(2 ^ (8 * ((bitLength n + 8) / 8) - 1) : Int) ≤ n ∧
      n < 2 ^ (8 * ((bitLength n + 8) / 8) - 1) := by
  have hb := natAbs_lt_two_pow_bitLength n
  have hlt := bitLength_lt_eight_mul (bitLength n)
  have hL1 : 1 ≤ (bitLength n + 8) / 8 := by
    exact (Nat.one_le_div_iff (by norm_num)).mpr (by omega)
  have hpow : (2 : Nat) ^ bitLength n ≤ 2 ^ (8 * ((bitLength n + 8) / 8) - 1) :=
    Nat.pow_le_pow_right (by norm_num) (by omega)
  have habs : (n.natAbs : Int) < 2 ^ (8 * ((bitLength n + 8) / 8) - 1) := by
    have h1 : (n.natAbs : Int) < ((2 ^ bitLength n : Nat) : Int) := by exact_mod_cast hb
    have h2 : ((2 ^ bitLength n : Nat) : Int) ≤
        ((2 ^ (8 * ((bitLength n + 8) / 8) - 1) : Nat) : Int) := by exact_mod_cast hpow
    have h3 : ((2 ^ (8 * ((bitLength n + 8) / 8) - 1) : Nat) : Int) =
        2 ^ (8 * ((bitLength n + 8) / 8) - 1) := by push_cast; ring
    omega
  refine ⟨hL1, ?_, ?_⟩ <;> rcases Int.natAbs_eq n with h | h <;> omega

/-- The serializer always succeeds, and yields the two's-complement
little-endian bytes of `n` over `(bitLength n + 8) / 8` bytes. -/
theorem int_serialize_eq (n : Int) :
    int_serialize n =
      some (leBytes ((bitLength n + 8) / 8)
        (n % (2 ^ (8 * ((bitLength n + 8) / 8)) : Int)).toNat) := by
  obtain ⟨hL1, hlo, hhi⟩ := int_serialize_range n
  rw [int_serialize, int_to_bytes, if_pos ⟨hlo, hhi⟩]

/-- Round trip of the built-in integer codec: deserializing the serialized
bytes recovers the integer, for integers of any sign and magnitude. -/
theorem int_serialize_deserialize (n : Int) :
    ∃ bs, int_serialize n = some bs ∧ int_deserialize bs = n := by
  obtain ⟨hL1, hlo, hhi⟩ := int_serialize_range n
  exact ⟨_, int_serialize_eq n,
    int_from_bytes_leBytes ((bitLength n + 8) / 8) n hL1 hlo hhi⟩

/-! ## The wire codec (the external ormsgpack library, modelled)

The byte encoding of msgpack is a bijection between byte strings and the
tree of natively representable values, so the model works on that tree:
`packb` maps a Python value to it (calling back into the serialization
registry on passthrough leaves) and `unpackb` maps it back to Python
values. Integers are native within the 64-bit wire range; outside it the
`OPT_PASSTHROUGH_BIG_INT` flag of `DEFAULT_PACK_OPTION` routes them to the
`default=Serialization.serialize` callback, as `OPT_PASSTHROUGH_TUPLE`
does every tuple. -/
inductive Wire : Type where
  | nil : Wire
  | bool : Bool → Wire
  | int : Int → Wire
  | str : String → Wire
  | bytes : List Nat → Wire
  | list : List Wire → Wire
  | map : List (String × Wire) → Wire
  deriving Repr

/-- The serialization registry after `register_defaults()`: the `int` and
`tuple` built-ins. (The other entries of `PLUGINS_STR` — bitarray, gmpy,
numpy, pandas — serialize objects of optional third-party libraries that
lie outside this data model and are skipped on `OptionalImportError`.)
`registryHasType t` says a serializer/deserializer pair is registered for
type name `t`. -/
def registryHasType (t : String) : Bool :=
  t == "int" || t == "tuple"

mutual

/-- `ormsgpack.packb(..., default=Serialization.serialize, option =
DEFAULT_PACK_OPTION)` with `use_pickle = False`: native leaves pass
through; a big integer leaf becomes `{"type": "int", "data": bytes}` via
`int_serialize`; a tuple leaf becomes `{"type": "tuple", "data": list}`
via `tuple_serialize`, whose elements are packed recursively.
`Option.none` models a raised `TypeError`/`OverflowError`. -/
def packb : PyVal → Option Wire
  | .none => some .nil
  | .bool b => some (.bool b)
  | .int i =>
    if -(2 ^ 63 : Int) ≤ i ∧ i < 2 ^ 64 then some (.int i)
    else
      (int_serialize i).map fun bs =>
        .map [("type", .str "int"), ("data", .bytes bs)]
  | .str s => some (.str s)
  | .bytes bs => some (.bytes bs)
  | .list xs => (packbList xs).map .list
  | .dict kvs => (packbDict kvs).map .map
  | .tuple xs =>
    (packbList xs).map fun ws =>
      .map [("type", .str "tuple"), ("data", .list ws)]

/-- The wire codec packing the elements of a sequence in order. -/
def packbList : List PyVal → Option (List Wire)
  | [] => some []
  | x :: xs =>
    match packb x, packbList xs with
    | some w, some ws => some (w :: ws)
    | _, _ => Option.none

/-- The wire codec packing the values of a string-keyed mapping in order. -/
def packbDict : List (String × PyVal) → Option (List (String × Wire))
  | [] => some []
  | (k, v) :: kvs =>
    match packb v, packbDict kvs with
    | some w, some ws => some ((k, w) :: ws)
    | _, _ => Option.none

end

mutual

/-- `ormsgpack.unpackb`: the parsed tree as Python values (arrays come
back as lists, maps as dicts; no tuples ever come off the wire). -/
def unpackb : Wire → PyVal
  | .nil => .none
  | .bool b => .bool b
  | .int i => .int i
  | .str s => .str s
  | .bytes bs => .bytes bs
  | .list ws => .list (unpackbList ws)
  | .map kvs => .dict (unpackbDict kvs)

/-- Elementwise `unpackb` over a wire array. -/
def unpackbList : List Wire → List PyVal
  | [] => []
  | w :: ws => unpackb w :: unpackbList ws

/-- Valuewise `unpackb` over a wire map. -/
def unpackbDict : List (String × Wire) → List (String × PyVal)
  | [] => []
  | (k, w) :: kvs => (k, unpackb w) :: unpackbDict kvs

end

/-- `Serialization.pack` (with `use_pickle = False` and the default
option mask): the envelope record `{"object": obj, "id": msg_id}` handed
to the wire codec. `Option.none` models the raised `TypeError`. -/
def Serialization.pack (obj : PyVal) (msg_id : MsgId) : Option Wire :=
  packb (.dict [("object", obj), ("id", msg_id.toPy)])

/-! ## The deserialization walk (Serialization.deserialize) -/

/-- Python's `"k" in obj.keys()` for the modelled dict. -/
def hasKey (kvs : List (String × PyVal)) (k : String) : Bool :=
  kvs.any (fun kv => kv.1 == k)

/-- Python's `obj[k]` for the modelled dict (keys are unique in a real
Python dict, so the first match is the entry). -/
def getKey (kvs : List (String × PyVal)) (k : String) : Option PyVal :=
  (kvs.find? (fun kv => kv.1 == k)).map (fun kv => kv.2)

/-- `isinstance(x, dict)`. -/
def PyVal.isDict : PyVal → Bool
  | .dict _ => true
  | _ => false

/-- The exceptions the deserialization walk can raise. -/
inductive DeserError : Type where
  | recursionLimit  -- Python's RecursionError (the modelled recursion fuel ran out)
  | cannotProcess   -- ValueError("Cannot process collection")
  | noLogic         -- NotImplementedError from default_deserialize (use_pickle = False)
  | badPayload      -- TypeError/AttributeError from a codec applied to an ill-typed payload
  deriving Repr, DecidableEq

mutual

/-- `Serialization.deserialize` with `use_pickle = False`. `fuel` models
Python's bounded recursion depth: every nested call runs on one unit
less, and exhaustion is the `RecursionError` a too-deep value causes.
Lists and plain mappings go through `collection_deserialize`; a mapping
carrying both reserved keys `"type"` and `"data"` is dispatched through
the registry (`DESERIALIZER_FUNCS.get`, modelled by `registryHasType`),
after re-walking the whole record when its `"data"` is itself a dict. -/
def Serialization.deserialize : Nat → PyVal → Except DeserError PyVal
  | 0, _ => .error .recursionLimit
  | fuel + 1, obj =>
    match obj with
    | .list xs => Serialization.collection_deserialize fuel (.list xs)
    | .dict kvs =>
      if hasKey kvs "type" && hasKey kvs "data" then
        match
          (if (getKey kvs "data").elim false PyVal.isDict then
            Serialization.collection_deserialize fuel (.dict kvs)
          else .ok (.dict kvs)) with
        | .error e => .error e
        | .ok (.dict kvs2) =>
          match getKey kvs2 "type", getKey kvs2 "data" with
          | some (.str "int"), some d =>
            match d with
            | .bytes bs => .ok (.int (int_deserialize bs))
            | _ => .error .badPayload
          | some (.str "tuple"), some d => tuple_deserialize fuel d
          | some _, some _ => .error .noLogic
          | _, _ => .error .cannotProcess
        | .ok _ => .error .cannotProcess
      else
        Serialization.collection_deserialize fuel (.dict kvs)
    | x => .ok x
termination_by fuel _ => (fuel, 0)

/-- `Serialization.collection_deserialize`: the structural walk over a
list or a dict; any other argument raises
`ValueError("Cannot process collection")`. A dict carrying both `"type"`
and `"data"` keeps those two entries and walks the values of its
`"data"` dict (`obj["data"].items()` raises on a non-dict). -/
def Serialization.collection_deserialize : Nat → PyVal → Except DeserError PyVal
  | 0, _ => .error .recursionLimit
  | fuel + 1, obj =>
    match obj with
    | .list xs =>
      match deserializeList fuel xs with
      | .ok ys => .ok (.list ys)
      | .error e => .error e
    | .dict kvs =>
      if hasKey kvs "type" && hasKey kvs "data" then
        match getKey kvs "type", getKey kvs "data" with
        | some t, some (.dict dkvs) =>
          match deserializeDict fuel dkvs with
          | .ok ws => .ok (.dict [("type", t), ("data", .dict ws)])
          | .error e => .error e
        | some _, some _ => .error .badPayload
        | _, _ => .error .cannotProcess
      else
        match deserializeDict fuel kvs with
        | .ok ws => .ok (.dict ws)
        | .error e => .error e
    | _ => .error .cannotProcess
termination_by fuel _ => (fuel, 0)

/-- `tuple_deserialize` from `serializer_plugins/tuple.py`:
`tuple(Serialization.collection_deserialize(obj, **kwargs))`. `tuple()`
over a dict iterates its keys. -/
def tuple_deserialize : Nat → PyVal → Except DeserError PyVal
  | 0, _ => .error .recursionLimit
  | fuel + 1, obj =>
    match Serialization.collection_deserialize fuel obj with
    | .ok (.list ys) => .ok (.tuple ys)
    | .ok (.dict kvs) => .ok (.tuple (kvs.map (fun kv => .str kv.1)))
    | .ok _ => .error .cannotProcess
    | .error e => .error e
termination_by fuel _ => (fuel, 0)

/-- The `for sub_obj in collection_obj` loop of `collection_deserialize`. -/
def deserializeList : Nat → List PyVal → Except DeserError (List PyVal)
  | _, [] => .ok []
  | fuel, x :: xs =>
    match Serialization.deserialize fuel x with
    | .ok y =>
      match deserializeList fuel xs with
      | .ok ys => .ok (y :: ys)
      | .error e => .error e
    | .error e => .error e
termination_by fuel xs => (fuel, xs.length + 1)

/-- The `for key, value in ...items()` loop of `collection_deserialize`. -/
def deserializeDict :
    Nat → List (String × PyVal) → Except DeserError (List (String × PyVal))
  | _, [] => .ok []
  | fuel, (k, v) :: kvs =>
    match Serialization.deserialize fuel v with
    | .ok w =>
      match deserializeDict fuel kvs with
      | .ok ws => .ok ((k, w) :: ws)
      | .error e => .error e
    | .error e => .error e
termination_by fuel kvs => (fuel, kvs.length + 1)

end

/-- `Serialization.unpack` (with `use_pickle = False`): parse the bytes
via the wire codec, deserialize the `"object"` field, and return
`(id, object)` — the id comes raw out of the wire parse. -/
def Serialization.unpack (fuel : Nat) (w : Wire) :
    Except DeserError (PyVal × PyVal) :=
  match unpackb w with
  | .dict kvs =>
    match getKey kvs "object", getKey kvs "id" with
    | some objField, some idField =>
      match Serialization.deserialize fuel objField with
      | .ok v => .ok (idField, v)
      | .error e => .error e
    | _, _ => .error .badPayload
  | _ => .error .badPayload

/-! ## Round trip of pack and unpack -/

mutual

/-- No mapping anywhere inside the value carries both reserved keys
`"type"` and `"data"` — such a plain mapping is indistinguishable on the
wire from a codec-wrapped leaf. -/
def PyVal.noReservedTag : PyVal → Bool
  | .list xs => PyVal.noReservedTagList xs
  | .tuple xs => PyVal.noReservedTagList xs
  | .dict kvs =>
    !(hasKey kvs "type" && hasKey kvs "data") && PyVal.noReservedTagDict kvs
  | _ => true

/-- `noReservedTag` over the elements of a sequence. -/
def PyVal.noReservedTagList : List PyVal → Bool
  | [] => true
  | x :: xs => PyVal.noReservedTag x && PyVal.noReservedTagList xs

/-- `noReservedTag` over the values of a mapping. -/
def PyVal.noReservedTagDict : List (String × PyVal) → Bool
  | [] => true
  | kv :: kvs => PyVal.noReservedTag kv.2 && PyVal.noReservedTagDict kvs

end

mutual

/-- Recursion depth sufficient for the deserialization walk over the wire
image of a value: two frames per list or dict level, three per tuple
level (the registry dispatch inserts one call). -/
def PyVal.unpackFuel : PyVal → Nat
  | .list xs => 2 + PyVal.unpackFuelList xs
  | .dict kvs => 2 + PyVal.unpackFuelDict kvs
  | .tuple xs => 3 + PyVal.unpackFuelList xs
  | _ => 1

/-- The deepest `unpackFuel` among the elements of a sequence. -/
def PyVal.unpackFuelList : List PyVal → Nat
  | [] => 0
  | x :: xs => max (PyVal.unpackFuel x) (PyVal.unpackFuelList xs)

/-- The deepest `unpackFuel` among the values of a mapping. -/
def PyVal.unpackFuelDict : List (String × PyVal) → Nat
  | [] => 0
  | kv :: kvs => max (PyVal.unpackFuel kv.2) (PyVal.unpackFuelDict kvs)

end

/-- `hasKey` only looks at the keys. -/
theorem hasKey_eq_keys (kvs : List (String × PyVal)) (k : String) :
    hasKey kvs k = (kvs.map Prod.fst).any (fun s => s == k) := by
  induction kvs with
  | nil => rfl
  | cons kv rest ih => simp [hasKey, List.any_cons] at ih ⊢; rw [ih]

/-- Packing then parsing a mapping preserves its key list. -/
theorem packbDict_keys {kvs : List (String × PyVal)}
    {ws : List (String × Wire)} (h : packbDict kvs = some ws) :
    (unpackbDict ws).map Prod.fst = kvs.map Prod.fst := by
  induction kvs generalizing ws with
  | nil =>
    simp only [packbDict, Option.some.injEq] at h
    subst h
    rfl
  | cons kv rest ih =>
    obtain ⟨k, v⟩ := kv
    simp only [packbDict] at h
    cases hv : packb v with
    | none => rw [hv] at h; simp at h
    | some w =>
      cases hr : packbDict rest with
      | none => rw [hv, hr] at h; simp at h
      | some ws' =>
        rw [hv, hr] at h
        simp only [Option.some.injEq] at h
        subst h
        simp only [unpackbDict, List.map_cons, List.map]
        rw [ih hr]

/-- Packing then parsing preserves `hasKey`. -/
theorem packbDict_hasKey {kvs : List (String × PyVal)}
    {ws : List (String × Wire)} (h : packbDict kvs = some ws) (k : String) :
    hasKey (unpackbDict ws) k = hasKey kvs k := by
  rw [hasKey_eq_keys, hasKey_eq_keys, packbDict_keys h]


/-- The walk on a codec-wrapped `int` record dispatches `int_deserialize`
on the payload bytes. -/
theorem deserialize_tag_int (fuel : Nat) (bs : List Nat) :
    Serialization.deserialize (fuel + 1)
      (.dict [("type", .str "int"), ("data", .bytes bs)]) =
      .ok (.int (int_deserialize bs)) := by
  simp [Serialization.deserialize, hasKey, getKey, List.find?, PyVal.isDict,
    int_deserialize]

/-- The walk on a codec-wrapped `tuple` record whose payload is a list
dispatches `tuple_deserialize` on the payload. -/
theorem deserialize_tag_tuple (fuel : Nat) (us : List PyVal) :
    Serialization.deserialize (fuel + 1)
      (.dict [("type", .str "tuple"), ("data", .list us)]) =
      tuple_deserialize fuel (.list us) := by
  simp [Serialization.deserialize, hasKey, getKey, List.find?, PyVal.isDict]

/-- A member of a tag-free sequence is tag-free. -/
theorem noReservedTagList_mem {xs : List PyVal}
    (h : PyVal.noReservedTagList xs = true) {x : PyVal} (hx : x ∈ xs) :
    x.noReservedTag = true := by
  induction xs with
  | nil => cases hx
  | cons y rest ih =>
    simp only [PyVal.noReservedTagList, Bool.and_eq_true] at h
    rcases List.mem_cons.mp hx with rfl | hx'
    · exact h.1
    · exact ih h.2 hx'

/-- A value of a tag-free mapping is tag-free. -/
theorem noReservedTagDict_mem {kvs : List (String × PyVal)}
    (h : PyVal.noReservedTagDict kvs = true) {kv : String × PyVal}
    (hkv : kv ∈ kvs) : kv.2.noReservedTag = true := by
  induction kvs with
  | nil => cases hkv
  | cons p rest ih =>
    simp only [PyVal.noReservedTagDict, Bool.and_eq_true] at h
    rcases List.mem_cons.mp hkv with rfl | hkv'
    · exact h.1
    · exact ih h.2 hkv'

/-- The fuel bound of a sequence covers each element. -/
theorem unpackFuelList_mem {xs : List PyVal} {x : PyVal} (hx : x ∈ xs) :
    x.unpackFuel ≤ PyVal.unpackFuelList xs := by
  induction xs with
  | nil => cases hx
  | cons y rest ih =>
    simp only [PyVal.unpackFuelList]
    rcases List.mem_cons.mp hx with rfl | hx'
    · exact le_max_left _ _
    · exact le_trans (ih hx') (le_max_right _ _)

/-- The fuel bound of a mapping covers each value. -/
theorem unpackFuelDict_mem {kvs : List (String × PyVal)}
    {kv : String × PyVal} (hkv : kv ∈ kvs) :
    kv.2.unpackFuel ≤ PyVal.unpackFuelDict kvs := by
  induction kvs with
  | nil => cases hkv
  | cons p rest ih =>
    simp only [PyVal.unpackFuelDict]
    rcases List.mem_cons.mp hkv with rfl | hkv'
    · exact le_max_left _ _
    · exact le_trans (ih hkv') (le_max_right _ _)

/-- Elementwise round trip over a sequence, given the round trip of each
element. -/
theorem packbList_deserializeList (fuel : Nat) (xs : List PyVal)
    (ih : ∀ x ∈ xs, ∃ w, packb x = some w ∧
      Serialization.deserialize fuel (unpackb w) = .ok x) :
    ∃ ws, packbList xs = some ws ∧
      deserializeList fuel (unpackbList ws) = .ok xs := by
  induction xs with
  | nil => exact ⟨[], by simp [packbList], by simp [unpackbList, deserializeList]⟩
  | cons x rest ihr =>
    obtain ⟨w, hw, hdx⟩ := ih x (by simp)
    obtain ⟨ws, hws, hdxs⟩ := ihr (fun y hy => ih y (by simp [hy]))
    refine ⟨w :: ws, by simp [packbList, hw, hws], ?_⟩
    simp only [unpackbList, deserializeList]
    rw [hdx, hdxs]

/-- Valuewise round trip over a mapping, given the round trip of each
value. -/
theorem packbDict_deserializeDict (fuel : Nat) (kvs : List (String × PyVal))
    (ih : ∀ kv ∈ kvs, ∃ w, packb kv.2 = some w ∧
      Serialization.deserialize fuel (unpackb w) = .ok kv.2) :
    ∃ ws, packbDict kvs = some ws ∧
      deserializeDict fuel (unpackbDict ws) = .ok kvs := by
  induction kvs with
  | nil => exact ⟨[], by simp [packbDict], by simp [unpackbDict, deserializeDict]⟩
  | cons kv rest ihr =>
    obtain ⟨k, v⟩ := kv
    obtain ⟨w, hw, hdx⟩ := ih (k, v) (by simp)
    obtain ⟨ws, hws, hdxs⟩ := ihr (fun p hp => ih p (by simp [hp]))
    refine ⟨(k, w) :: ws, by simp [packbDict, hw, hws], ?_⟩
    simp only [unpackbDict, deserializeDict]
    rw [hdx, hdxs]

/-- Packing a tag-free value always succeeds, and the deserialization
walk over the parsed wire tree restores the value exactly, given
recursion fuel of at least `unpackFuel`. -/
theorem packb_deserialize (v : PyVal) (hv : v.noReservedTag = true)
    (fuel : Nat) (hf : v.unpackFuel ≤ fuel) :
    ∃ w, packb v = some w ∧
      Serialization.deserialize fuel (unpackb w) = .ok v := by
  cases v with
  | none =>
    have h1 : (1 : Nat) ≤ fuel := by simpa [PyVal.unpackFuel] using hf
    obtain ⟨f, rfl⟩ : ∃ f, fuel = f + 1 := ⟨fuel - 1, by omega⟩
    exact ⟨.nil, by simp [packb], by simp [unpackb, Serialization.deserialize]⟩
  | bool b =>
    have h1 : (1 : Nat) ≤ fuel := by simpa [PyVal.unpackFuel] using hf
    obtain ⟨f, rfl⟩ : ∃ f, fuel = f + 1 := ⟨fuel - 1, by omega⟩
    exact ⟨.bool b, by simp [packb], by simp [unpackb, Serialization.deserialize]⟩
  | str s =>
    have h1 : (1 : Nat) ≤ fuel := by simpa [PyVal.unpackFuel] using hf
    obtain ⟨f, rfl⟩ : ∃ f, fuel = f + 1 := ⟨fuel - 1, by omega⟩
    exact ⟨.str s, by simp [packb], by simp [unpackb, Serialization.deserialize]⟩
  | bytes bs =>
    have h1 : (1 : Nat) ≤ fuel := by simpa [PyVal.unpackFuel] using hf
    obtain ⟨f, rfl⟩ : ∃ f, fuel = f + 1 := ⟨fuel - 1, by omega⟩
    exact ⟨.bytes bs, by simp [packb],
      by simp [unpackb, Serialization.deserialize]⟩
  | int i =>
    have h1 : (1 : Nat) ≤ fuel := by simpa [PyVal.unpackFuel] using hf
    obtain ⟨f, rfl⟩ : ∃ f, fuel = f + 1 := ⟨fuel - 1, by omega⟩
    by_cases hni : -(2 ^ 63 : Int) ≤ i ∧ i < 2 ^ 64
    · refine ⟨.int i, ?_, by simp [unpackb, Serialization.deserialize]⟩
      simp only [packb]
      rw [if_pos hni]
    · obtain ⟨hL1, hlo, hhi⟩ := int_serialize_range i
      refine ⟨.map [("type", .str "int"),
        ("data", .bytes (leBytes ((bitLength i + 8) / 8)
          (i % (2 ^ (8 * ((bitLength i + 8) / 8)) : Int)).toNat))], ?_, ?_⟩
      · simp only [packb]
        rw [if_neg hni, int_serialize_eq i]
        rfl
      · simp only [unpackb, unpackbDict, unpackbList]
        rw [deserialize_tag_int]
        simp only [int_deserialize]
        rw [int_from_bytes_leBytes ((bitLength i + 8) / 8) i hL1 hlo hhi]
  | list xs =>
    have hv' : PyVal.noReservedTagList xs = true := by
      simpa [PyVal.noReservedTag] using hv
    have hf' : 2 + PyVal.unpackFuelList xs ≤ fuel := by
      simpa [PyVal.unpackFuel] using hf
    obtain ⟨g, rfl⟩ : ∃ g, fuel = g + 2 := ⟨fuel - 2, by omega⟩
    obtain ⟨ws, hws, hdes⟩ := packbList_deserializeList g xs
      (fun x hx => packb_deserialize x (noReservedTagList_mem hv' hx) g
        (le_trans (unpackFuelList_mem hx) (by omega)))
    refine ⟨.list ws, by simp [packb, hws], ?_⟩
    show Serialization.deserialize (g + 1 + 1) (unpackb (.list ws)) = .ok (.list xs)
    simp only [unpackb]
    simp only [Serialization.deserialize, Serialization.collection_deserialize]
    rw [hdes]
  | dict kvs =>
    have hv0 := hv
    simp only [PyVal.noReservedTag, Bool.and_eq_true, Bool.not_eq_true'] at hv0
    have hf' : 2 + PyVal.unpackFuelDict kvs ≤ fuel := by
      simpa [PyVal.unpackFuel] using hf
    obtain ⟨g, rfl⟩ : ∃ g, fuel = g + 2 := ⟨fuel - 2, by omega⟩
    obtain ⟨ws, hws, hdes⟩ := packbDict_deserializeDict g kvs
      (fun kv hkv => packb_deserialize kv.2 (noReservedTagDict_mem hv0.2 hkv) g
        (le_trans (unpackFuelDict_mem hkv) (by omega)))
    refine ⟨.map ws, by simp [packb, hws], ?_⟩
    show Serialization.deserialize (g + 1 + 1) (unpackb (.map ws)) = .ok (.dict kvs)
    simp only [unpackb]
    simp only [Serialization.deserialize, Serialization.collection_deserialize]
    rw [packbDict_hasKey hws "type", packbDict_hasKey hws "data", hv0.1]
    simp only [Bool.false_eq_true, if_false]
    rw [hdes]
  | tuple xs =>
    have hv' : PyVal.noReservedTagList xs = true := by
      simpa [PyVal.noReservedTag] using hv
    have hf' : 3 + PyVal.unpackFuelList xs ≤ fuel := by
      simpa [PyVal.unpackFuel] using hf
    obtain ⟨g, rfl⟩ : ∃ g, fuel = g + 3 := ⟨fuel - 3, by omega⟩
    obtain ⟨ws, hws, hdes⟩ := packbList_deserializeList g xs
      (fun x hx => packb_deserialize x (noReservedTagList_mem hv' hx) g
        (le_trans (unpackFuelList_mem hx) (by omega)))
    refine ⟨.map [("type", .str "tuple"), ("data", .list ws)],
      by simp [packb, hws], ?_⟩
    show Serialization.deserialize (g + 2 + 1)
      (unpackb (.map [("type", .str "tuple"), ("data", .list ws)])) =
        .ok (.tuple xs)
    simp only [unpackb, unpackbDict, unpackbList]
    rw [deserialize_tag_tuple]
    simp only [tuple_deserialize, Serialization.collection_deserialize]
    rw [hdes]
termination_by sizeOf v
decreasing_by
all_goals subst_vars
all_goals
  first
  | (have h := List.sizeOf_lt_of_mem hx
     simp
     omega)
  | (obtain ⟨a, b⟩ := kv
     have h := List.sizeOf_lt_of_mem hkv
     simp at h ⊢
     omega)

/-- A message id the wire codec represents natively: any string, or an
integer within the 64-bit wire range. -/
def MsgId.wireNative : MsgId → Bool
  | .str _ => true
  | .int n => decide (-(2 ^ 63 : Int) ≤ n ∧ n < 2 ^ 64)

/-- A natively representable message id packs to its own wire node and
parses back to itself. -/
theorem packb_msgId {m : MsgId} (hm : m.wireNative = true) :
    ∃ wm, packb m.toPy = some wm ∧ unpackb wm = m.toPy := by
  cases m with
  | str s =>
    exact ⟨.str s, by simp [MsgId.toPy, packb], by simp [MsgId.toPy, unpackb]⟩
  | int n =>
    have hn : -(2 ^ 63 : Int) ≤ n ∧ n < 2 ^ 64 := by
      simpa [MsgId.wireNative] using hm
    refine ⟨.int n, ?_, by simp [MsgId.toPy, unpackb]⟩
    simp only [MsgId.toPy, packb]
    rw [if_pos hn]

/-- C1 (amended): `unpack(pack(v, msg_id)) == (msg_id, v)` holds for every
value `v` of the modelled types none of whose mappings carries both
reserved keys `"type"` and `"data"`, and every message id that is a
string or a 64-bit-range integer, with deserialization fuel of at least
`unpackFuel v`. The reserved-key and id restrictions are forced: a plain
mapping with both keys is re-dispatched through the registry on unpack
(see the counterexample), and an out-of-range integer id is wrapped on
pack but returned raw on unpack. -/
theorem pack_unpack_roundtrip (v : PyVal) (m : MsgId) (fuel : Nat)
    (hv : v.noReservedTag = true) (hm : m.wireNative = true)
    (hf : v.unpackFuel ≤ fuel) :
    ∃ w, Serialization.pack v m = some w ∧
      Serialization.unpack fuel w = .ok (m.toPy, v) := by
  obtain ⟨wv, hwv, hdv⟩ := packb_deserialize v hv fuel hf
  obtain ⟨wm, hwm, hum⟩ := packb_msgId hm
  refine ⟨.map [("object", wv), ("id", wm)], ?_, ?_⟩
  · simp [Serialization.pack, packb, packbDict, hwv, hwm]
  · simp [Serialization.unpack, unpackb, unpackbDict, getKey, List.find?,
      hum, hdv, show (("object" : String) == "id") = false from by decide]

/-- C1 (counterexample): the claim as stated fails on the plain dict
`{"type": "int", "data": b"\x05"}` — a primitive value — which unpack
hands to the integer deserializer, returning the integer `5` instead of
the dict. -/
theorem pack_unpack_reserved_tag_counterexample :
    (Serialization.pack (.dict [("type", .str "int"), ("data", .bytes [5])])
        (.str "m")).map (Serialization.unpack 100) =
      some (.ok (.str "m", .int 5)) ∧
    PyVal.int 5 ≠ .dict [("type", .str "int"), ("data", .bytes [5])] := by
  have hpack : Serialization.pack
      (.dict [("type", .str "int"), ("data", .bytes [5])]) (.str "m") =
      some (.map [("object", .map [("type", .str "int"),
        ("data", .bytes [5])]), ("id", .str "m")]) := by
    simp [Serialization.pack, packb, packbDict, MsgId.toPy]
  have h1 : Serialization.deserialize 100
      (.dict [("type", .str "int"), ("data", .bytes [5])]) =
      .ok (.int (int_deserialize [5])) := deserialize_tag_int 99 [5]
  have h2 : int_deserialize [5] = 5 := by
    norm_num [int_deserialize, int_from_bytes, leValue]
  constructor
  · rw [hpack]
    simp [Serialization.unpack, unpackb, unpackbDict, getKey, List.find?,
      h1, h2, show (("object" : String) == "id") = false from by decide]
  · exact fun h => PyVal.noConfusion h

/-- C1 (witness): the round trip evaluated on a concrete nested value. -/
theorem pack_unpack_roundtrip_witness :
    ∃ w, Serialization.pack (.dict [("greeting", .str "hi"),
        ("xs", .list [.int 3, .none])]) (.str "round1") = some w ∧
      Serialization.unpack (PyVal.unpackFuel (.dict [("greeting", .str "hi"),
        ("xs", .list [.int 3, .none])])) w =
        .ok (.str "round1", .dict [("greeting", .str "hi"),
          ("xs", .list [.int 3, .none])]) :=
  pack_unpack_roundtrip _ _ _
    (by simp [PyVal.noReservedTag, PyVal.noReservedTagDict,
      PyVal.noReservedTagList, hasKey])
    (by decide) (Nat.le_refl _)

/-- `1` has bit length one. -/
theorem bitLength_one : bitLength 1 = 1 := by
  simp [bitLength, Nat.size_one]

/-- C8 (counterexample): at `n = 1` the serializer emits one byte,
`b"\x01"`, not the `⌈(bit_length(1)+8)/8⌉ = 2` bytes the claim states. -/
theorem int_serialize_ceil_counterexample :
    ¬ ((int_serialize 1).map List.length =
        some ((bitLength 1 + 8 + 7) / 8)) ∧
    (int_serialize 1).map List.length = some 1 ∧
    (bitLength 1 + 8 + 7) / 8 = 2 := by
  have h1 : int_serialize 1 = some [1] := by
    rw [int_serialize, bitLength_one]
    norm_num [int_to_bytes, leBytes]
  rw [bitLength_one, h1]
  norm_num

/-- C8 (amended): for every integer `n` of any sign and magnitude, the
built-in integer serializer succeeds and produces the little-endian
two's-complement signed encoding over exactly `⌊(bit_length(n)+8)/8⌋`
bytes (equivalently `⌈(bit_length(n)+1)/8⌉`, floor not ceiling), and the
built-in deserializer inverts it: `int_deserialize (int_serialize n) = n`. -/
theorem int_serialize_floor_length_roundtrip (n : Int) :
    ∃ bs, int_serialize n = some bs ∧
      bs.length = (bitLength n + 8) / 8 ∧ int_deserialize bs = n := by
  obtain ⟨hL1, hlo, hhi⟩ := int_serialize_range n
  exact ⟨_, int_serialize_eq n, leBytes_length _ _,
    int_from_bytes_leBytes _ n hL1 hlo hhi⟩

/-! ## The HTTP client handler (httphandlers.py, HTTPClient) -/

mutual

/-- Stand-in for `len(data)` of the encoded envelope (the msgpack byte
count); no claim depends on the exact value, only that it is a fixed
function of the packed tree. -/
def Wire.encodedLen : Wire → Nat
  | .nil => 1
  | .bool _ => 1
  | .int _ => 9
  | .str s => 5 + s.length
  | .bytes bs => 5 + bs.length
  | .list ws => 5 + Wire.encodedLenList ws
  | .map kvs => 5 + Wire.encodedLenMap kvs

/-- Total `encodedLen` of array elements. -/
def Wire.encodedLenList : List Wire → Nat
  | [] => 0
  | w :: ws => Wire.encodedLen w + Wire.encodedLenList ws

/-- Total `encodedLen` of map entries. -/
def Wire.encodedLenMap : List (String × Wire) → Nat
  | [] => 0
  | (k, w) :: kvs => 5 + k.length + Wire.encodedLen w + Wire.encodedLenMap kvs

end

/-- An entry of the inbound buffer: either an unresolved `asyncio.Future`
created by `recv` (named by its creation index), or a message the server
delivered before any matching `recv` (stored raw at line 396). -/
inductive BufEntry : Type where
  | future (fid : Nat)
  | value (v : PyVal)
  deriving Repr

/-- The state of `HTTPClient`. `msgPrefix` is the source's `msg_prefix`;
`next_future` is model bookkeeping giving each created future a fresh
name. -/
structure HTTPClient where
  addr : String := ""
  port : Nat := 80
  option : Option Nat := Option.none
  use_pickle : Bool := false
  msgPrefix : Option String := Option.none
  session_open : Bool := true
  msg_send_counter : Nat := 0
  total_bytes_sent : Nat := 0
  msg_recv_counter : Nat := 0
  buffer : List (MsgId × BufEntry) := []
  next_future : Nat := 0
  deriving Repr

/-- `self.buffer[msg_id]` / `msg_id in handler.buffer` (Python dict keys
are unique; the first match is the entry). -/
def bufGet (buf : List (MsgId × BufEntry)) (mid : MsgId) : Option BufEntry :=
  (buf.find? (fun e => e.1 == mid)).map (fun e => e.2)

/-- The removal `buffer.pop(msg_id)` performs. -/
def bufErase (buf : List (MsgId × BufEntry)) (mid : MsgId) :
    List (MsgId × BufEntry) :=
  buf.filter (fun e => !(e.1 == mid))

/-- `HTTPClient._prefix_msg_id`: prepend the prefix when one is set
(stringifying the id), return the id unchanged otherwise. -/
def HTTPClient._prefix_msg_id (msg_id : MsgId) (msgPrefix : Option String) :
    MsgId :=
  match msgPrefix with
  | some p => .str (p ++ msg_id.toStr)
  | Option.none => msg_id

/-- `HTTPClient.recv`: default the id to the receive counter, apply the
prefix, increment the counter, then pop the buffer entry — returning the
popped entry if any, else a fresh unresolved future stored under the id. -/
def HTTPClient.recv (c : HTTPClient) (msg_id : Option MsgId) :
    HTTPClient × BufEntry :=
  let mid0 := match msg_id with
    | Option.none => MsgId.int (c.msg_recv_counter : Int)
    | some m => m
  let mid := HTTPClient._prefix_msg_id mid0 c.msgPrefix
  let c1 := { c with msg_recv_counter := c.msg_recv_counter + 1 }
  match bufGet c1.buffer mid with
  | some e => ({ c1 with buffer := bufErase c1.buffer mid }, e)
  | Option.none =>
    ({ c1 with
        buffer := c1.buffer ++ [(mid, BufEntry.future c1.next_future)]
        next_future := c1.next_future + 1 },
      .future c1.next_future)

/-- What the delivery step of `HTTPServer._post_handler` (lines 385-396)
does to the resolved handler's buffer. -/
inductive DeliverEvent : Type where
  | completed (fid : Nat) (v : PyVal)  -- pop, then set_result succeeded on the pending future
  | idReuse                            -- pop, then set_result raised AttributeError: logged, value dropped
  | stored (v : PyVal)                 -- no entry: the message is stored as a resolved value
  deriving Repr

/-- The delivery step: `if msg_id in handler.buffer:
handler.buffer.pop(msg_id).set_result(message)` — the pop removes the
entry whether or not `set_result` then succeeds — `else:
handler.buffer[msg_id] = message`. -/
def HTTPClient.deliver (c : HTTPClient) (mid : MsgId) (message : PyVal) :
    HTTPClient × DeliverEvent :=
  match bufGet c.buffer mid with
  | some (.future fid) =>
    ({ c with buffer := bufErase c.buffer mid }, .completed fid message)
  | some (.value _) =>
    ({ c with buffer := bufErase c.buffer mid }, .idReuse)
  | Option.none =>
    ({ c with buffer := c.buffer ++ [(mid, .value message)] }, .stored message)

/-- `HTTPClient.shutdown`: close the HTTP session. -/
def HTTPClient.shutdown (c : HTTPClient) : HTTPClient :=
  { c with session_open := false }

/-- What the transport offers one POST attempt: a response with a status
code, or a raised exception (timeout or connection error). -/
inductive Attempt : Type where
  | response (status : Nat)
  | exn
  deriving Repr, DecidableEq

/-- The exceptions a send can involve: a packing failure (`TypeError`
from `Serialization.pack`, which propagates to the caller), and the
transport failures that arise inside the `try` block of `_send` — a
non-200 status (`assert resp.status == 200`) or a network error. -/
inductive SendException : Type where
  | packError
  | badStatus (status : Nat)
  | network
  deriving Repr, DecidableEq

/-- The transport failures, as opposed to packing failures. -/
def SendException.isTransport : SendException → Bool
  | .packError => false
  | .badStatus _ => true
  | .network => true

/-- What the `try` block of one POST attempt produces. -/
def post_attempt : Attempt → Except SendException Unit
  | .response 200 => .ok ()
  | .response s => .error (.badStatus s)
  | .exn => .error .network

/-- What the caller of `await _send` observes in the model. The source
returns `None` in every case; `delivered` vs `gaveUpSilently` is model
instrumentation of which path ran, invisible to the Python caller.
`stillRetrying` marks that the modelled attempt trace ended while the
code would still be retrying. -/
inductive SendOutcome : Type where
  | delivered
  | gaveUpSilently
  | stillRetrying
  deriving Repr, DecidableEq

/-- `HTTPClient._send`: one POST per element of `trace`. The
`except Exception` block catches every transport failure and either
retries (when `retry_delay` is truthy and `num_retries != 0`,
decrementing with a floor of -1) or logs "Will not retry." and returns
normally — so the `Except` layer, the only thing an awaiting caller can
observe, is `.ok` on every path. On success `len(data)` (stood in for by
`data_len`) is added to `total_bytes_sent`. -/
def HTTPClient._send (c : HTTPClient) (data_len : Nat) :
    List Attempt → Nat → Int → HTTPClient × Except SendException SendOutcome
  | [], _, _ => (c, .ok .stillRetrying)
  | a :: rest, retry_delay, num_retries =>
    match post_attempt a with
    | .ok _ =>
      ({ c with total_bytes_sent := c.total_bytes_sent + data_len },
        .ok .delivered)
    | .error _ =>
      if retry_delay ≠ 0 ∧ num_retries ≠ 0 then
        HTTPClient._send c data_len rest retry_delay (max (num_retries - 1) (-1))
      else
        (c, .ok .gaveUpSilently)

/-- `HTTPClient.send`: default the id to the send counter, apply the
prefix when one is set, increment the send counter, pack the envelope
(a packing failure propagates to the caller), then POST via `_send`.
Returns the new state, the message id used on the wire, and what the
awaiting caller observes. -/
def HTTPClient.send (c : HTTPClient) (message : PyVal) (msg_id : Option MsgId)
    (trace : List Attempt) (retry_delay : Nat) (max_retries : Int) :
    HTTPClient × MsgId × Except SendException SendOutcome :=
  let mid0 := match msg_id with
    | Option.none => MsgId.int (c.msg_send_counter : Int)
    | some m => m
  let mid := match c.msgPrefix with
    | some p => HTTPClient._prefix_msg_id mid0 (some p)
    | Option.none => mid0
  let c1 := { c with msg_send_counter := c.msg_send_counter + 1 }
  match Serialization.pack message mid with
  | some data =>
    let out :=
      HTTPClient._send c1 data.encodedLen trace retry_delay max_retries
    (out.1, mid, out.2)
  | Option.none => (c1, mid, .error .packError)

/-- Looking up the head entry of the buffer. -/
theorem bufGet_cons (kv : MsgId × BufEntry) (rest : List (MsgId × BufEntry))
    (mid : MsgId) :
    bufGet (kv :: rest) mid =
      if kv.1 == mid then some kv.2 else bufGet rest mid := by
  simp only [bufGet, List.find?]
  cases h : kv.1 == mid <;> simp [h]

/-- Appending a fresh entry at an absent key makes it the entry found
there. -/
theorem bufGet_append_of_none {buf : List (MsgId × BufEntry)} {mid : MsgId}
    (h : bufGet buf mid = Option.none) (e : BufEntry) :
    bufGet (buf ++ [(mid, e)]) mid = some e := by
  induction buf with
  | nil => simp [bufGet, List.find?]
  | cons kv rest ih =>
    rw [bufGet_cons] at h
    rw [List.cons_append, bufGet_cons]
    cases hkv : kv.1 == mid with
    | true => rw [hkv] at h; simp at h
    | false =>
      rw [hkv] at h
      simp only [Bool.false_eq_true, if_false] at h ⊢
      exact ih h

/-- After `bufErase` no entry remains at the erased key. -/
theorem bufGet_erase_self (buf : List (MsgId × BufEntry)) (mid : MsgId) :
    bufGet (bufErase buf mid) mid = Option.none := by
  induction buf with
  | nil => rfl
  | cons kv rest ih =>
    simp only [bufErase, List.filter]
    cases hkv : kv.1 == mid with
    | true => simpa [bufErase] using ih
    | false =>
      simp only [Bool.not_false]
      rw [bufGet_cons, hkv]
      simpa [bufErase] using ih

/-- `bufErase` leaves entries at other keys untouched. -/
theorem bufGet_erase_other (buf : List (MsgId × BufEntry)) (mid mid' : MsgId)
    (h : mid' ≠ mid) : bufGet (bufErase buf mid) mid' = bufGet buf mid' := by
  induction buf with
  | nil => rfl
  | cons kv rest ih =>
    simp only [bufErase, List.filter]
    cases hkv : kv.1 == mid with
    | true =>
      have hne : (kv.1 == mid') = false := by
        have : kv.1 = mid := by simpa using hkv
        subst this
        simpa using fun hcon => h hcon.symm
      rw [bufGet_cons, hne]
      simp only [Bool.false_eq_true, if_false]
      simpa [bufErase] using ih
    | false =>
      simp only [Bool.not_false]
      rw [bufGet_cons, bufGet_cons]
      cases hkv' : kv.1 == mid' with
      | true => simp
      | false =>
        simp only [Bool.false_eq_true, if_false]
        simpa [bufErase] using ih

/-! ## The HTTP server and the pool (httphandlers.py, pool.py) -/

/-- The listening site of the external HTTP library. Modelled from the
spec: the concrete HTTP library is out of scope and "the core touches"
its site only to start and stop it — §4.4: "Stop the listening site,
cancel the background task that runs it … Idempotent." -/
structure TCPSite where
  running : Bool := true
  deriving Repr, DecidableEq

/-- Modelled from the spec: stopping the listening site (idempotent per
§4.4). -/
def TCPSite.stop (s : TCPSite) : TCPSite := { s with running := false }

/-- The state of `HTTPServer`. `external_port` is resolved at
construction (`port` when the parameter is absent). -/
structure HTTPServer where
  addr : String := "0.0.0.0"
  port : Nat := 80
  external_port : Nat := 80
  site : Option TCPSite := some {}
  server_task_cancelled : Bool := false
  msg_recv_counter : Nat := 0
  total_bytes_recv : Nat := 0
  deriving Repr, DecidableEq

/-- `HTTPServer.shutdown`: stop the site when one is set, cancel the
server task, log the counters (which the log line reads but does not
change). -/
def HTTPServer.shutdown (s : HTTPServer) : HTTPServer :=
  let s1 := match s.site with
    | some site => { s with site := some site.stop }
    | Option.none => s
  { s1 with server_task_cancelled := true }

/-- The state of `Pool`. In Python `pool_handlers` and `handlers_lookup`
alias the same `HTTPClient` objects; the model treats the name map as
the owner of each handler's state. -/
structure Pool where
  default_max_retries : Int := -1
  http_server : Option HTTPServer := Option.none
  pool_handlers : List (String × HTTPClient) := []
  handlers_lookup : List (String × HTTPClient) := []
  deriving Repr

/-- `Pool.shutdown`: shut the server down when one is set, shut every
handler down (closing its outbound session) while summing the counters
for the log line, then clear both handler maps. -/
def Pool.shutdown (p : Pool) : Pool :=
  { p with
    http_server := p.http_server.map HTTPServer.shutdown
    pool_handlers := []
    handlers_lookup := [] }

/-- `pool_handlers[name]` / `handlers_lookup[identity]`. -/
def lookupHandler (hs : List (String × HTTPClient)) (name : String) :
    Option HTTPClient :=
  (hs.find? (fun h => h.1 == name)).map (fun h => h.2)

/-- The errors `Pool.send` and `Pool.broadcast` raise before any network
activity. -/
inductive PoolError : Type where
  | noHandler (name : String)  -- AttributeError('No pool handler named ...')
  deriving Repr, DecidableEq

/-- `Pool.send`: resolve the handler by name (`_get_handler` raises on
an unknown name), then await `HTTPClient.send` with the source's default
`retry_delay = 1` and the pool's default retry cap when none is given.
Python mutates the shared handler object in place; the model returns the
updated handler next to what the awaiting caller observes. -/
def Pool.send (p : Pool) (handler_name : String) (message : PyVal)
    (msg_id : Option MsgId) (trace : List Attempt) (max_retries : Option Int) :
    Except PoolError (HTTPClient × Except SendException SendOutcome) :=
  match lookupHandler p.pool_handlers handler_name with
  | Option.none => .error (.noHandler handler_name)
  | some c =>
    let out := c.send message msg_id trace 1 (max_retries.getD p.default_max_retries)
    .ok (out.1, out.2.2)

/-- The ormsgpack option-mask constants. Modelled from the spec: the
wire codec's "option mask" (§4.2) is a bitwise combination of flags of
the external library; the claims depend only on the mask being a fixed
bitwise-AND-able value, not on the numbers. -/
def OPT_PASSTHROUGH_BIG_INT : Nat := 1

/-- Modelled from the spec: a passthrough flag bit of the wire codec. -/
def OPT_PASSTHROUGH_TUPLE : Nat := 2

/-- Modelled from the spec: a passthrough flag bit of the wire codec. -/
def OPT_PASSTHROUGH_DATACLASS : Nat := 4

/-- Modelled from the spec: a flag bit of the wire codec. -/
def OPT_SERIALIZE_NUMPY : Nat := 8

/-- `DEFAULT_PACK_OPTION` from serialization.py. -/
def DEFAULT_PACK_OPTION : Nat :=
  OPT_PASSTHROUGH_BIG_INT ||| OPT_PASSTHROUGH_TUPLE |||
    OPT_PASSTHROUGH_DATACLASS ||| OPT_SERIALIZE_NUMPY

/-- The errors `_preprocess_broadcast` raises. -/
inductive BroadcastError : Type where
  | noSuchHandler (name : String)  -- KeyError from pool_handlers[handler_name]
  | inconsistentPrefixes           -- ValueError("…handlers have mismatching prefixes…")
  | emptyReduce                    -- TypeError from reduce() over an empty handler list
  deriving Repr, DecidableEq

/-- The selection `[self.pool_handlers[n] for n in handler_names]`
(all registered handlers in insertion order when no names are given). -/
def selectHandlers (p : Pool) (handler_names : Option (List String)) :
    Except BroadcastError (List HTTPClient) :=
  match handler_names with
  | Option.none => .ok (p.pool_handlers.map (fun h => h.2))
  | some names => names.mapM (fun n =>
      match lookupHandler p.pool_handlers n with
      | some c => Except.ok c
      | Option.none => Except.error (.noSuchHandler n))

/-- `len({h.msg_prefix for h in handlers}) < 2`: the selected handlers
share one prefix (vacuously true of an empty selection). -/
def consistentPrefixes (hs : List HTTPClient) : Bool :=
  match hs with
  | [] => true
  | c :: rest => rest.all (fun d => d.msgPrefix == c.msgPrefix)

/-- `Pool._preprocess_broadcast`: resolve the retry cap and the selected
handlers, require one common prefix (mismatch raises before anything is
mutated), apply it to the msg id, conjoin `use_pickle`, AND the option
masks (`reduce` raises on an empty selection), and only then increment
each selected handler's send counter once. Returns the retry cap, the
selected handlers with incremented counters, `use_pickle`, the option
mask and the prefixed id. -/
def Pool._preprocess_broadcast (p : Pool) (msg_id : String)
    (handler_names : Option (List String)) (max_retries : Option Int) :
    Except BroadcastError (Int × List HTTPClient × Bool × Nat × MsgId) :=
  let mr := max_retries.getD p.default_max_retries
  match selectHandlers p handler_names with
  | .error e => .error e
  | .ok handlers =>
    if consistentPrefixes handlers then
      let common := match handlers with
        | [] => Option.none
        | c :: _ => c.msgPrefix
      let mid := HTTPClient._prefix_msg_id (.str msg_id) common
      let use_pickle := handlers.all (fun c => c.use_pickle)
      match handlers with
      | [] => .error .emptyReduce
      | c0 :: rest =>
        let option := rest.foldl
          (fun acc c => acc &&& c.option.getD DEFAULT_PACK_OPTION)
          (c0.option.getD DEFAULT_PACK_OPTION)
        let handlers' := (c0 :: rest).map
          (fun c => { c with msg_send_counter := c.msg_send_counter + 1 })
        .ok (mr, handlers', use_pickle, option, mid)
    else .error .inconsistentPrefixes

/-- A successful broadcast: the selected handlers (send counters already
incremented by the preprocessing), the envelope packed once, and the
per-handler transmissions, each handed the same packed bytes. -/
structure BroadcastRun where
  handlers : List HTTPClient
  packed : Wire
  transmissions : List (HTTPClient × Wire)
  deriving Repr

/-- `Pool.broadcast`: preprocess, pack the envelope once, then dispatch
`handler._send(data, …)` for every selected handler with the one shared
`data`. A preprocessing error leaves the pool unchanged: the source
raises out of `_preprocess_broadcast` before mutating any handler. A
packing failure (`TypeError`) happens after the counter increments, as
in the source; it is modelled by `.ok Option.none`. -/
def Pool.broadcast (p : Pool) (message : PyVal) (msg_id : String)
    (handler_names : Option (List String)) (max_retries : Option Int) :
    Pool × Except BroadcastError (Option BroadcastRun) :=
  match Pool._preprocess_broadcast p msg_id handler_names max_retries with
  | .error e => (p, .error e)
  | .ok (_mr, handlers, _use_pickle, _option, mid) =>
    let p' := { p with pool_handlers := p.pool_handlers.map (fun nh =>
      if (match handler_names with
          | Option.none => true
          | some names => names.contains nh.1) then
        (nh.1, { nh.2 with msg_send_counter := nh.2.msg_send_counter + 1 })
      else nh) }
    match Serialization.pack message mid with
    | Option.none => (p', .ok Option.none)
    | some data =>
      (p', .ok (some
        { handlers := handlers
          packed := data
          transmissions := handlers.map (fun c => (c, data)) }))

/-- `Pool.async_broadcast`: the same preprocessing, single pack and
per-handler dispatch; only the awaiting differs (`create_task` without
`gather`), which the state model does not distinguish. -/
def Pool.async_broadcast (p : Pool) (message : PyVal) (msg_id : String)
    (handler_names : Option (List String)) (max_retries : Option Int) :
    Pool × Except BroadcastError (Option BroadcastRun) :=
  Pool.broadcast p message msg_id handler_names max_retries

/-- An inbound POST as `_post_handler` sees it after reading the body:
whether the transport is TLS, the client-certificate fields (read only
when it is), the socket address, and the `server_port` cookie. -/
structure PostRequest where
  secure : Bool := false
  issuer_common_name : String := ""  -- client_cert["issuer"][0][0][1]
  cert_serial : Nat := 0             -- int(client_cert["serialNumber"], 16)
  remote : String := ""
  server_port_cookie : Option String := Option.none
  deriving Repr, DecidableEq

/-- The HTTP error responses of `_post_handler`. -/
inductive PostError : Type where
  | badRequest    -- 400: no server_port cookie
  | unauthorized  -- 401: no handler for either identity
  | unpackError   -- the unpack exception, re-surfaced as a 5xx
  | badIdType     -- model restriction: an envelope id that is not str | int
  deriving Repr, DecidableEq

/-- `"<issuer-CN>:<serial-as-int>"` when the request is TLS, the empty
string otherwise (`handler_id_from_cert = ""`). -/
def handler_id_from_cert (r : PostRequest) : String :=
  if r.secure then r.issuer_common_name ++ ":" ++ toString r.cert_serial
  else ""

/-- `"<remote-addr>:<server_port-cookie>"`. -/
def handler_id_from_address (r : PostRequest) (server_port : String) : String :=
  r.remote ++ ":" ++ server_port

/-- The identity resolution of `_post_handler` (lines 350-373): require
the cookie (400), then look the handler up first by certificate
identity, then by address identity, else 401. -/
def HTTPServer.resolve_handler (handlers_lookup : List (String × HTTPClient))
    (r : PostRequest) : Except PostError HTTPClient :=
  match r.server_port_cookie with
  | Option.none => .error .badRequest
  | some server_port =>
    match lookupHandler handlers_lookup (handler_id_from_cert r) with
    | some c => .ok c
    | Option.none =>
      match lookupHandler handlers_lookup (handler_id_from_address r server_port) with
      | some c => .ok c
      | Option.none => .error .unauthorized

/-- A wire envelope id back as a buffer key (`str | int` — the only
shapes the send side produces). -/
def pyToMsgId : PyVal → Option MsgId
  | .str s => some (.str s)
  | .int n => some (.int n)
  | _ => Option.none

/-- `HTTPServer._post_handler`: resolve the sender, unpack the envelope
(off the event loop; a failure re-surfaces), deliver `(msg_id, message)`
to the resolved handler's buffer, then bump the server's counters. -/
def HTTPServer._post_handler (s : HTTPServer)
    (handlers_lookup : List (String × HTTPClient)) (r : PostRequest)
    (body : Wire) (body_len : Nat) (fuel : Nat) :
    Except PostError (HTTPServer × HTTPClient × DeliverEvent) :=
  match HTTPServer.resolve_handler handlers_lookup r with
  | .error e => .error e
  | .ok handler =>
    match Serialization.unpack fuel body with
    | .error _ => .error .unpackError
    | .ok (idp, message) =>
      match pyToMsgId idp with
      | Option.none => .error .badIdType
      | some mid =>
        let out := handler.deliver mid message
        .ok ({ s with
            msg_recv_counter := s.msg_recv_counter + 1
            total_bytes_recv := s.total_bytes_recv + body_len },
          out.1, out.2)

/-! ## Claims about the handler and pool state machines -/

/-- `_send` changes nothing in the client state except `total_bytes_sent`
(it adds the payload length once on the successful attempt). -/
theorem _send_only_bytes (c : HTTPClient) (len : Nat) (trace : List Attempt)
    (rd : Nat) (nr : Int) :
    ∃ extra, (HTTPClient._send c len trace rd nr).1 =
      { c with total_bytes_sent := c.total_bytes_sent + extra } := by
  induction trace generalizing nr with
  | nil => exact ⟨0, rfl⟩
  | cons a rest ih =>
    cases hpa : post_attempt a with
    | ok u => exact ⟨len, by simp [HTTPClient._send, hpa]⟩
    | error e =>
      by_cases hretry : rd ≠ 0 ∧ nr ≠ 0
      · obtain ⟨extra, hx⟩ := ih (max (nr - 1) (-1))
        exact ⟨extra, by simp [HTTPClient._send, hpa, hretry, hx]⟩
      · exact ⟨0, by simp [HTTPClient._send, hpa, hretry]⟩

/-- Whatever the attempts yield, `_send` returns without raising: every
path through the `except Exception` block ends in a normal return. -/
theorem _send_always_ok (c : HTTPClient) (len : Nat) (trace : List Attempt)
    (rd : Nat) (nr : Int) :
    ∃ out, (HTTPClient._send c len trace rd nr).2 = .ok out := by
  induction trace generalizing nr with
  | nil => exact ⟨.stillRetrying, rfl⟩
  | cons a rest ih =>
    cases hpa : post_attempt a with
    | ok u => exact ⟨.delivered, by simp [HTTPClient._send, hpa]⟩
    | error e =>
      by_cases hretry : rd ≠ 0 ∧ nr ≠ 0
      · obtain ⟨out, hout⟩ := ih (max (nr - 1) (-1))
        exact ⟨out, by simp [HTTPClient._send, hpa, hretry, hout]⟩
      · exact ⟨.gaveUpSilently, by simp [HTTPClient._send, hpa, hretry]⟩

/-- `send` increments the send counter by one, leaves the prefix alone,
and uses the explicit id or else the counter value at call time, with
the prefix applied. -/
theorem send_state (c : HTTPClient) (message : PyVal) (mi : Option MsgId)
    (trace : List Attempt) (rd : Nat) (mr : Int) :
    (c.send message mi trace rd mr).1.msg_send_counter =
        c.msg_send_counter + 1 ∧
    (c.send message mi trace rd mr).1.msgPrefix = c.msgPrefix ∧
    (c.send message mi trace rd mr).2.1 = HTTPClient._prefix_msg_id
      (mi.getD (.int (c.msg_send_counter : Int))) c.msgPrefix := by
  cases hpre : c.msgPrefix with
  | none =>
    cases mi with
    | none =>
      refine ⟨?_, ?_, ?_⟩ <;>
        (simp only [HTTPClient.send, hpre, Option.getD,
          HTTPClient._prefix_msg_id]
         split
         · obtain ⟨extra, hx⟩ := _send_only_bytes _ _ trace rd mr
           rw [hx]
         · rfl)
    | some m =>
      refine ⟨?_, ?_, ?_⟩ <;>
        (simp only [HTTPClient.send, hpre, Option.getD,
          HTTPClient._prefix_msg_id]
         split
         · obtain ⟨extra, hx⟩ := _send_only_bytes _ _ trace rd mr
           rw [hx]
         · rfl)
  | some p =>
    cases mi with
    | none =>
      refine ⟨?_, ?_, ?_⟩ <;>
        (simp only [HTTPClient.send, hpre, Option.getD,
          HTTPClient._prefix_msg_id]
         split
         · obtain ⟨extra, hx⟩ := _send_only_bytes _ _ trace rd mr
           rw [hx]
         · rfl)
    | some m =>
      refine ⟨?_, ?_, ?_⟩ <;>
        (simp only [HTTPClient.send, hpre, Option.getD,
          HTTPClient._prefix_msg_id]
         split
         · obtain ⟨extra, hx⟩ := _send_only_bytes _ _ trace rd mr
           rw [hx]
         · rfl)

/-- C2: a `recv(id)` issued when the buffer has no entry at the
(prefixed) id creates an unresolved future, stores it at the id, and
returns it; the next inbound delivery for that id completes exactly that
stored future with the delivered value and removes the entry. -/
theorem recv_stores_future_deliver_completes (c : HTTPClient) (m : MsgId)
    (v : PyVal)
    (hbuf : bufGet c.buffer (HTTPClient._prefix_msg_id m c.msgPrefix) =
      Option.none) :
    ∃ c1, c.recv (some m) = (c1, .future c.next_future) ∧
      bufGet c1.buffer (HTTPClient._prefix_msg_id m c.msgPrefix) =
        some (.future c.next_future) ∧
      (c1.deliver (HTTPClient._prefix_msg_id m c.msgPrefix) v).2 =
        .completed c.next_future v ∧
      bufGet ((c1.deliver (HTTPClient._prefix_msg_id m c.msgPrefix) v).1).buffer
        (HTTPClient._prefix_msg_id m c.msgPrefix) = Option.none := by
  have hrecv : c.recv (some m) = ({ c with
      msg_recv_counter := c.msg_recv_counter + 1
      buffer := c.buffer ++ [(HTTPClient._prefix_msg_id m c.msgPrefix,
        BufEntry.future c.next_future)]
      next_future := c.next_future + 1 }, .future c.next_future) := by
    simp only [HTTPClient.recv]
    rw [hbuf]
  refine ⟨_, hrecv, ?_, ?_, ?_⟩
  · exact bufGet_append_of_none hbuf _
  · simp [HTTPClient.deliver, bufGet_append_of_none hbuf _]
  · simp [HTTPClient.deliver, bufGet_append_of_none hbuf _, bufGet_erase_self]

/-- C2 (witness): on a fresh handler, `recv("id7")` stores future 0 and
the delivery of `"payload"` completes it and clears the entry. -/
theorem recv_stores_future_deliver_completes_witness :
    ∃ c1, HTTPClient.recv {} (some (.str "id7")) = (c1, .future 0) ∧
      bufGet c1.buffer (.str "id7") = some (.future 0) ∧
      (c1.deliver (.str "id7") (.str "payload")).2 =
        .completed 0 (.str "payload") ∧
      bufGet ((c1.deliver (.str "id7") (.str "payload")).1).buffer
        (.str "id7") = Option.none :=
  recv_stores_future_deliver_completes {} (.str "id7") (.str "payload") rfl

/-- C3 (counterexample): with `"first"` stored resolved under `"id"`, a
second delivery is logged as id reuse and dropped — but the entry was
popped, so the buffer no longer holds `"first"` and a subsequent
`recv("id")` returns a fresh pending future, not the first value. -/
theorem deliver_resolved_entry_counterexample :
    (HTTPClient.deliver { buffer := [(.str "id", .value (.str "first"))] }
        (.str "id") (.str "second")).2 = .idReuse ∧
    bufGet (HTTPClient.deliver { buffer := [(.str "id", .value (.str "first"))] }
        (.str "id") (.str "second")).1.buffer (.str "id") = Option.none ∧
    ((HTTPClient.deliver { buffer := [(.str "id", .value (.str "first"))] }
        (.str "id") (.str "second")).1.recv (some (.str "id"))).2 =
      .future 0 := ⟨rfl, rfl, rfl⟩

/-- C3 (amended): when an inbound message arrives for an id whose buffer
entry is an already-resolved value, the event is logged (`idReuse`) and
the second value is dropped — but `buffer.pop` has already removed the
entry before `set_result` raises, so the first value does not remain in
the buffer: the entry is gone (entries at other ids are untouched) and a
subsequent `recv` returns a fresh pending future. -/
theorem deliver_resolved_pops_first_value (c : HTTPClient) (mid : MsgId)
    (v1 v2 : PyVal) (h : bufGet c.buffer mid = some (.value v1)) :
    c.deliver mid v2 = ({ c with buffer := bufErase c.buffer mid }, .idReuse) ∧
    bufGet (c.deliver mid v2).1.buffer mid = Option.none ∧
    ∀ mid', mid' ≠ mid →
      bufGet (c.deliver mid v2).1.buffer mid' = bufGet c.buffer mid' := by
  have hdel : c.deliver mid v2 =
      ({ c with buffer := bufErase c.buffer mid }, .idReuse) := by
    simp [HTTPClient.deliver, h]
  refine ⟨hdel, ?_, ?_⟩
  · rw [hdel]
    exact bufGet_erase_self _ _
  · intro mid' hne
    rw [hdel]
    exact bufGet_erase_other _ _ _ hne

/-- C3 (witness): the amended statement evaluated at a one-entry buffer. -/
theorem deliver_resolved_pops_first_value_witness :
    HTTPClient.deliver { buffer := [(.str "k", .value (.str "v1"))] }
        (.str "k") (.str "v2") = ({ buffer := [] }, .idReuse) ∧
    bufGet (HTTPClient.deliver { buffer := [(.str "k", .value (.str "v1"))] }
        (.str "k") (.str "v2")).1.buffer (.str "k") = Option.none ∧
    ∀ mid', mid' ≠ .str "k" →
      bufGet (HTTPClient.deliver
          { buffer := [(.str "k", .value (.str "v1"))] }
          (.str "k") (.str "v2")).1.buffer mid' =
        bufGet [(.str "k", .value (.str "v1"))] mid' :=
  deliver_resolved_pops_first_value { buffer := [(.str "k", .value (.str "v1"))] }
    (.str "k") (.str "v1") (.str "v2") rfl

/-- C4 (counterexample): a synchronous `Pool.send` over a transport that
answers 500 once, with retries exhausted (`max_retries = 0`), completes
normally: the caller observes `.ok` — "Connection failed. Will not
retry." is only logged — so the terminal transport failure is not
surfaced to the synchronous caller, contrary to the claim. -/
theorem send_terminal_failure_silent_counterexample :
    (Pool.send { pool_handlers := [("peer", {})] } "peer" (.str "hello")
        (some (.str "id0")) [.response 500] (some 0)).map Prod.snd =
      .ok (.ok .gaveUpSilently) := by
  simp [Pool.send, lookupHandler, List.find?, HTTPClient.send,
    HTTPClient._send, post_attempt, Serialization.pack, packb, packbDict,
    MsgId.toPy, Except.map]

/-- C4 (amended): terminal transport failures (non-200, timeout,
connection error, with retries exhausted) are swallowed for synchronous
and asynchronous sends alike: `_send` returns without raising on every
attempt trace, and the only error `Pool.send` can hand its caller
besides an unknown handler name is a packing failure — never a
transport one. -/
theorem send_swallows_transport_failures (p : Pool) (handler_name : String)
    (message : PyVal) (msg_id : Option MsgId) (trace : List Attempt)
    (mr : Option Int) (c : HTTPClient) (len : Nat) (rd : Nat) (nr : Int) :
    (∃ out, (HTTPClient._send c len trace rd nr).2 = .ok out) ∧
    ∀ res e, Pool.send p handler_name message msg_id trace mr = .ok res →
      res.2 = .error e → e = .packError := by
  refine ⟨_send_always_ok c len trace rd nr, ?_⟩
  intro res e hok herr
  simp only [Pool.send] at hok
  cases hlk : lookupHandler p.pool_handlers handler_name with
  | none => rw [hlk] at hok; simp at hok
  | some ch =>
    rw [hlk] at hok
    simp only [Except.ok.injEq] at hok
    subst hok
    simp only [HTTPClient.send] at herr
    split at herr
    · obtain ⟨out, hout⟩ := _send_always_ok _ _ trace 1
        (mr.getD p.default_max_retries)
      rw [hout] at herr
      simp at herr
    · simp at herr
      exact herr.symm

/-- C5: a broadcast over selected handlers sharing one prefix packs the
envelope exactly once — a single `Serialization.pack` result `data` —
hands the same `data` to every selected handler's transmission, and
increments each selected handler's send counter exactly once. -/
theorem broadcast_single_pack (p : Pool) (message : PyVal) (msg_id : String)
    (handler_names : Option (List String)) (mr : Option Int)
    (c0 : HTTPClient) (rest : List HTTPClient) (data : Wire)
    (hsel : selectHandlers p handler_names = .ok (c0 :: rest))
    (hcons : consistentPrefixes (c0 :: rest) = true)
    (hpack : Serialization.pack message
      (HTTPClient._prefix_msg_id (.str msg_id) c0.msgPrefix) = some data) :
    ∃ p', p.broadcast message msg_id handler_names mr = (p', .ok (some
      { handlers := (c0 :: rest).map (fun c =>
          { c with msg_send_counter := c.msg_send_counter + 1 })
        packed := data
        transmissions := ((c0 :: rest).map (fun c =>
          { c with msg_send_counter := c.msg_send_counter + 1 })).map
            (fun c => (c, data)) })) := by
  refine ⟨{ p with pool_handlers := p.pool_handlers.map (fun nh =>
    if (match handler_names with
        | Option.none => true
        | some names => names.contains nh.1) then
      (nh.1, { nh.2 with msg_send_counter := nh.2.msg_send_counter + 1 })
    else nh) }, ?_⟩
  simp [Pool.broadcast, Pool._preprocess_broadcast, hsel, hcons, hpack]

/-- C5 (witness): broadcasting `"Hi"` under id `"id1"` to two fresh
handlers packs one envelope and hands it to both, each counter moving
0 → 1. -/
theorem broadcast_single_pack_witness :
    ∃ p', Pool.broadcast { pool_handlers := [("local1", {}), ("local2", {})] }
        (.str "Hi") "id1" (some ["local1", "local2"]) (some (-1)) =
      (p', .ok (some
        { handlers := ([{}, {}] : List HTTPClient).map (fun c =>
            { c with msg_send_counter := c.msg_send_counter + 1 })
          packed := .map [("object", .str "Hi"), ("id", .str "id1")]
          transmissions := (([{}, {}] : List HTTPClient).map (fun c =>
            { c with msg_send_counter := c.msg_send_counter + 1 })).map
              (fun c => (c, .map [("object", .str "Hi"), ("id", .str "id1")])) })) :=
  broadcast_single_pack _ _ _ _ _ _ _ _ rfl rfl
    (by simp [Serialization.pack, packb, packbDict, MsgId.toPy,
      HTTPClient._prefix_msg_id])

/-- C6: a broadcast (or async_broadcast) whose selected handlers do not
all share one message prefix fails with the inconsistent-prefixes error
(`ValueError` in the source, **InconsistentPrefixes** in the spec), and
the pool is returned exactly as it was: nothing packed, nothing sent, no
send counter changed. -/
theorem broadcast_inconsistent_prefixes_error (p : Pool) (message : PyVal)
    (msg_id : String) (handler_names : Option (List String))
    (mr : Option Int) (sel : List HTTPClient)
    (hsel : selectHandlers p handler_names = .ok sel)
    (hmis : consistentPrefixes sel = false) :
    p.broadcast message msg_id handler_names mr =
      (p, .error .inconsistentPrefixes) ∧
    p.async_broadcast message msg_id handler_names mr =
      (p, .error .inconsistentPrefixes) := by
  have h : p.broadcast message msg_id handler_names mr =
      (p, .error .inconsistentPrefixes) := by
    simp [Pool.broadcast, Pool._preprocess_broadcast, hsel, hmis]
  exact ⟨h, h⟩

/-- C6 (witness): prefixes `"p"` and `"q"` make the broadcast fail with
the inconsistent-prefixes error, pool unchanged. -/
theorem broadcast_inconsistent_prefixes_error_witness :
    Pool.broadcast { pool_handlers := [("local1", { msgPrefix := some "p" }),
        ("local2", { msgPrefix := some "q" })] } (.str "X") "id"
        (some ["local1", "local2"]) Option.none =
      ({ pool_handlers := [("local1", { msgPrefix := some "p" }),
        ("local2", { msgPrefix := some "q" })] },
        .error .inconsistentPrefixes) ∧
    Pool.async_broadcast { pool_handlers :=
        [("local1", { msgPrefix := some "p" }),
         ("local2", { msgPrefix := some "q" })] } (.str "X") "id"
        (some ["local1", "local2"]) Option.none =
      ({ pool_handlers := [("local1", { msgPrefix := some "p" }),
        ("local2", { msgPrefix := some "q" })] },
        .error .inconsistentPrefixes) :=
  broadcast_inconsistent_prefixes_error _ _ _ _ _
    [{ msgPrefix := some "p" }, { msgPrefix := some "q" }] rfl rfl

/-- Parsing and deserializing a small string envelope. -/
theorem unpack_small_envelope : Serialization.unpack 1
    (.map [("object", .str "po"), ("id", .str "id0")]) =
    .ok (.str "id0", .str "po") := by
  have hd : Serialization.deserialize 1 (.str "po") = .ok (.str "po") := by
    rw [show (1 : Nat) = 0 + 1 from rfl]
    simp [Serialization.deserialize]
  simp [Serialization.unpack, unpackb, unpackbDict, getKey, List.find?, hd,
    show (("object" : String) == "id") = false from by decide]

/-- C7: an inbound TLS POST whose certificate identity
`"<issuer-CN>:<serial-as-int>"` is registered is delivered to the
handler registered under that certificate identity — the address
identity is never consulted, so this holds even when
`"<remote-addr>:<server_port-cookie>"` is registered to a different
handler. -/
theorem post_delivers_to_cert_identity (s : HTTPServer)
    (lookup : List (String × HTTPClient)) (r : PostRequest) (sp : String)
    (c : HTTPClient) (body : Wire) (body_len fuel : Nat)
    (idp message : PyVal) (mid : MsgId)
    (_hsec : r.secure = true)
    (hcookie : r.server_port_cookie = some sp)
    (hcert : lookupHandler lookup (handler_id_from_cert r) = some c)
    (hunp : Serialization.unpack fuel body = .ok (idp, message))
    (hid : pyToMsgId idp = some mid) :
    HTTPServer._post_handler s lookup r body body_len fuel =
      .ok ({ s with
          msg_recv_counter := s.msg_recv_counter + 1
          total_bytes_recv := s.total_bytes_recv + body_len },
        (c.deliver mid message).1, (c.deliver mid message).2) := by
  simp [HTTPServer._post_handler, HTTPServer.resolve_handler, hcookie, hcert,
    hunp, hid]

/-- C7 (witness): with `"CA:7"` mapping to the port-1111 handler and the
address identity `"1.2.3.4:4465"` mapping to a different handler, the
delivery goes to the port-1111 handler. -/
theorem post_delivers_to_cert_identity_witness :
    HTTPServer._post_handler {}
      [("CA:7", { port := 1111 }), ("1.2.3.4:4465", { port := 2222 })]
      { secure := true, issuer_common_name := "CA", cert_serial := 7,
        remote := "1.2.3.4", server_port_cookie := some "4465" }
      (.map [("object", .str "po"), ("id", .str "id0")]) 42 1 =
    .ok ({ ({} : HTTPServer) with
        msg_recv_counter := ({} : HTTPServer).msg_recv_counter + 1
        total_bytes_recv := ({} : HTTPServer).total_bytes_recv + 42 },
      (HTTPClient.deliver { port := 1111 } (.str "id0") (.str "po")).1,
      (HTTPClient.deliver { port := 1111 } (.str "id0") (.str "po")).2) :=
  post_delivers_to_cert_identity _ _ _ "4465" _ _ _ _ _ _ _ rfl rfl rfl
    unpack_small_envelope rfl

/-- C9: after `Pool.shutdown` both handler maps are empty, and a second
`shutdown` is safe: the model's step is total (the repository's own
shutdown path raises nothing; the external site's stop is modelled from
the spec's idempotent interface) and a fixpoint, so every subsequent
call returns the same state with both maps still empty. -/
theorem shutdown_clears_and_idempotent (p : Pool) :
    (p.shutdown).pool_handlers = [] ∧ (p.shutdown).handlers_lookup = [] ∧
    p.shutdown.shutdown = p.shutdown := by
  refine ⟨rfl, rfl, ?_⟩
  cases hs : p.http_server with
  | none => simp [Pool.shutdown, hs]
  | some srv =>
    cases hsite : srv.site with
    | none => simp [Pool.shutdown, HTTPServer.shutdown, hs, hsite]
    | some site =>
      simp [Pool.shutdown, HTTPServer.shutdown, TCPSite.stop, hs, hsite]

/-- C10: every `send` increments the send counter by exactly one and
every `recv` increments the receive counter by exactly one, explicit
message id or not; the automatic id equals the counter value at call
time, so after an explicit-id send the next automatic id is `old + 1` —
the value `old` is skipped. -/
theorem send_recv_increment_counters (c : HTTPClient) (message : PyVal)
    (mid : Option MsgId) (trace : List Attempt) (rd : Nat) (mr : Int) :
    (c.send message mid trace rd mr).1.msg_send_counter =
        c.msg_send_counter + 1 ∧
    (c.recv mid).1.msg_recv_counter = c.msg_recv_counter + 1 ∧
    (c.send message Option.none trace rd mr).2.1 =
      HTTPClient._prefix_msg_id (.int (c.msg_send_counter : Int))
        c.msgPrefix ∧
    ((c.send message (some (.str "x")) trace rd mr).1.send message
        Option.none trace rd mr).2.1 =
      HTTPClient._prefix_msg_id (.int ((c.msg_send_counter : Int) + 1))
        c.msgPrefix := by
  obtain ⟨h1, h2, h3⟩ := send_state c message mid trace rd mr
  obtain ⟨h1n, h2n, h3n⟩ := send_state c message Option.none trace rd mr
  obtain ⟨h1x, h2x, h3x⟩ :=
    send_state c message (some (.str "x")) trace rd mr
  obtain ⟨h1y, h2y, h3y⟩ := send_state
    ((c.send message (some (.str "x")) trace rd mr).1) message Option.none
    trace rd mr
  refine ⟨h1, ?_, ?_, ?_⟩
  · simp only [HTTPClient.recv]
    split <;> rfl
  · simpa using h3n
  · rw [h3y, h1x, h2x]
    simp
